import Mathlib

/-!
Formal model of the embedding-matching pipeline of `ai-backend/main.py`
(AI Face Service).

The pipeline consists of:
  * `safe_numpy_embedding` — validation of an incoming raw embedding
    (list check, numeric-conversion check, dimension check, finiteness check);
  * `normalize_embedding`  — L2 normalization with a zero-norm guard;
  * `cosine_similarity`    — dot product of two (pre-normalized) vectors;
  * `extract_embedding`    — selection of the largest detected face region;
  * `match_face`           — the top-level matching endpoint: threshold
    validation, query validation/normalization, the per-record loop over the
    store snapshot (skipping malformed records), threshold filter, rounding
    of the reported similarity, stable descending sort, truncation to 5.

Python floats are modelled as real numbers; a float value that is NaN,
infinite, or fails `np.asarray(..., dtype=np.float32)` conversion is
modelled by a dedicated constructor of `PyElem`.
-/

namespace FaceService

/-- Embedding dimension of the buffalo_l model (`EMBEDDING_DIM = 512`). -/
def EMBEDDING_DIM : Nat := 512

/-- Default similarity threshold (`SIMILARITY_THRESHOLD = 0.55`). -/
def SIMILARITY_THRESHOLD : ℝ := 0.55

/-- A validated embedding vector: a list of (finite) real numbers. -/
abbrev Vec := List ℝ

/-- One element of a raw embedding list, as Python/numpy sees it:
  * `num x`      — a finite numeric value;
  * `nan`        — a value converting to floating NaN;
  * `inf`        — a value converting to floating infinity;
  * `nonNumeric` — a value on which `np.asarray(..., dtype=np.float32)`
    raises (e.g. a non-numeric string, or a ragged nested list). -/
inductive PyElem where
  | num (x : ℝ)
  | nan
  | inf
  | nonNumeric

/-- Whether `np.asarray(..., dtype=np.float32)` accepts the element. -/
def PyElem.convertible : PyElem → Bool
  | .num _ => true
  | .nan => true
  | .inf => true
  | .nonNumeric => false

/-- Whether the converted element passes `np.isfinite`. -/
def PyElem.finiteNum : PyElem → Bool
  | .num _ => true
  | .nan => false
  | .inf => false
  | .nonNumeric => false

/-- The numeric value of a convertible, finite element. -/
def PyElem.val : PyElem → ℝ
  | .num x => x
  | .nan => 0
  | .inf => 0
  | .nonNumeric => 0

/-- A raw embedding field as received from JSON / the store: either a Python
list of elements, or anything that is not a list (including a missing
field, i.e. `None`). -/
inductive PyVal where
  | list (elems : List PyElem)
  | notList

/-- A plain list of finite numbers, as raw input. -/
def rawOf (v : Vec) : PyVal := .list (v.map PyElem.num)

/-- The validation error kinds raised by `safe_numpy_embedding` and
`normalize_embedding` (each is a `ValueError` with a distinct message in
the source):
  * `notAList`    — "must be a list of 512 numeric values";
  * `nonNumeric`  — "contains non-numeric values" (np.asarray raised);
  * `dimMismatch` — "must have exactly 512 values";
  * `nonFinite`   — "contains NaN or infinite values";
  * `zeroNorm`    — "has zero norm and cannot be normalized". -/
inductive ValErr where
  | notAList
  | nonNumeric
  | dimMismatch
  | nonFinite
  | zeroNorm
  deriving DecidableEq

/-- Model of `safe_numpy_embedding(raw_embedding, label)`: the list check,
then the `np.asarray` conversion (which raises on non-convertible content),
then the dimension check, then the finiteness check, in source order. -/
def safe_numpy_embedding (raw : PyVal) : Except ValErr Vec :=
  match raw with
  | .notList => .error .notAList
  | .list elems =>
    if ¬ elems.all PyElem.convertible then .error .nonNumeric
    else if elems.length ≠ EMBEDDING_DIM then .error .dimMismatch
    else if ¬ elems.all PyElem.finiteNum then .error .nonFinite
    else .ok (elems.map PyElem.val)

/-- Sum of squares of a vector's entries. -/
def normSq (v : Vec) : ℝ := (v.map fun x => x * x).sum

/-- `np.linalg.norm(vector)`: the L2 norm. -/
noncomputable def norm (v : Vec) : ℝ := Real.sqrt (normSq v)

open Classical in
/-- Model of `normalize_embedding(vector, label)`: computes the L2 norm,
fails with `zeroNorm` when the norm is exactly zero, otherwise divides
every entry by the norm. -/
noncomputable def normalize_embedding (v : Vec) : Except ValErr Vec :=
  if norm v = 0 then .error .zeroNorm
  else .ok (v.map fun x => x / norm v)

/-- `np.dot` of two 1-D vectors. -/
def dot (a b : Vec) : ℝ := (List.zipWith (fun x y => x * y) a b).sum

/-- Model of `cosine_similarity(a, b)`: the plain dot product (the inputs
are pre-normalized upstream; no validation, never fails). -/
def cosine_similarity (a b : Vec) : ℝ := dot a b

open Classical in
/-- Python's `round` to an integer: nearest integer, ties to even. -/
noncomputable def pyRound (x : ℝ) : ℤ :=
  if Int.fract x < 1/2 then ⌊x⌋
  else if 1/2 < Int.fract x then ⌊x⌋ + 1
  else if Even ⌊x⌋ then ⌊x⌋ else ⌊x⌋ + 1

/-- Python's `round(x, 4)`: round to four decimal places. -/
noncomputable def round4 (x : ℝ) : ℝ := (pyRound (x * 10000) : ℝ) / 10000

section Lemmas

/-- Mapping `PyElem.num` over a plain vector yields only convertible
elements. -/
theorem all_convertible_rawOf (v : Vec) :
    (v.map PyElem.num).all PyElem.convertible = true := by
  simp [List.all_map, Function.comp, PyElem.convertible]

/-- Mapping `PyElem.num` over a plain vector yields only finite elements. -/
theorem all_finite_rawOf (v : Vec) :
    (v.map PyElem.num).all PyElem.finiteNum = true := by
  simp [List.all_map, Function.comp, PyElem.finiteNum]

/-- Validation succeeds on a plain 512-dimensional numeric list and returns
it unchanged. -/
theorem safe_rawOf (v : Vec) (h : v.length = EMBEDDING_DIM) :
    safe_numpy_embedding (rawOf v) = .ok v := by
  simp [safe_numpy_embedding, rawOf, all_convertible_rawOf, all_finite_rawOf, h,
    List.map_map]
  have : PyElem.val ∘ PyElem.num = id := by
    funext x
    rfl
  simp [this]

theorem normSq_nil : normSq ([] : Vec) = 0 := by
  simp [normSq]

theorem normSq_cons (x : ℝ) (v : Vec) : normSq (x :: v) = x * x + normSq v := by
  simp [normSq]

theorem normSq_replicate_zero (n : Nat) :
    normSq (List.replicate n (0 : ℝ)) = 0 := by
  simp [normSq, List.map_replicate]

theorem normSq_nonneg (v : Vec) : 0 ≤ normSq v := by
  induction v with
  | nil => simp [normSq_nil]
  | cons x tl ih =>
    have := mul_self_nonneg x
    rw [normSq_cons]
    linarith

theorem normSq_pos_of_mem (v : Vec) (x : ℝ) (hx : x ∈ v) (hne : x ≠ 0) :
    0 < normSq v := by
  induction v with
  | nil => cases hx
  | cons a tl ih =>
    rw [normSq_cons]
    rcases List.mem_cons.mp hx with h | h
    · have hpos : 0 < a * a := by
        subst h
        exact mul_self_pos.mpr hne
      have := normSq_nonneg tl
      linarith
    · have := ih h
      have := mul_self_nonneg a
      linarith

theorem norm_nonneg' (v : Vec) : 0 ≤ norm v := Real.sqrt_nonneg _

theorem norm_eq_zero_iff (v : Vec) : norm v = 0 ↔ normSq v = 0 := by
  unfold norm
  constructor
  · intro h
    have := Real.sqrt_eq_zero (normSq_nonneg v) |>.mp h
    exact this
  · intro h
    rw [h, Real.sqrt_zero]

/-- The norm of a vector whose sum of squares is a known perfect square. -/
theorem norm_of_sq (v : Vec) (c : ℝ) (hc : 0 ≤ c) (h : normSq v = c ^ 2) :
    norm v = c := by
  unfold norm
  rw [h, Real.sqrt_sq hc]

theorem normalize_of_norm_ne (v : Vec) (h : norm v ≠ 0) :
    normalize_embedding v = .ok (v.map fun x => x / norm v) := by
  simp [normalize_embedding, h]

theorem normalize_of_norm_zero (v : Vec) (h : norm v = 0) :
    normalize_embedding v = .error .zeroNorm := by
  simp [normalize_embedding, h]

theorem normSq_map_div (v : Vec) (c : ℝ) :
    normSq (v.map fun x => x / c) = normSq v / (c * c) := by
  induction v with
  | nil => simp [normSq_nil]
  | cons x tl ih =>
    simp only [List.map_cons, normSq_cons, ih]
    rw [div_mul_div_comm, add_div]

theorem dot_nil_left (b : Vec) : dot [] b = 0 := by
  simp [dot]

theorem dot_nil_right (a : Vec) : dot a [] = 0 := by
  cases a <;> simp [dot]

theorem dot_cons (x y : ℝ) (a b : Vec) :
    dot (x :: a) (y :: b) = x * y + dot a b := by
  simp [dot]

theorem dot_replicate_zero_left (n : Nat) (l : Vec) :
    dot (List.replicate n (0 : ℝ)) l = 0 := by
  induction n generalizing l with
  | zero => simp [dot]
  | succ k ih =>
    cases l with
    | nil => exact dot_nil_right _
    | cons y tl =>
      rw [List.replicate_succ, dot_cons, ih, zero_mul, add_zero]

/-- Evaluation rule for `pyRound` in the round-down case. -/
theorem pyRound_eq_of (y : ℝ) (n : ℤ) (h1 : (n : ℝ) ≤ y) (h2 : y < n + 1/2) :
    pyRound y = n := by
  have hfl : ⌊y⌋ = n := by
    rw [Int.floor_eq_iff]
    constructor
    · exact_mod_cast h1
    · have : (n : ℝ) + 1/2 < n + 1 := by norm_num
      linarith
  have hfr : Int.fract y < 1/2 := by
    rw [Int.fract, hfl]
    have : (n : ℝ) + 1/2 - n = 1/2 := by ring
    linarith
  unfold pyRound
  rw [if_pos hfr, hfl]

/-- Evaluation rule for `round4` in the round-down case. -/
theorem round4_eq_of (x : ℝ) (n : ℤ) (h1 : (n : ℝ) ≤ x * 10000)
    (h2 : x * 10000 < n + 1/2) : round4 x = n / 10000 := by
  unfold round4
  rw [pyRound_eq_of (x * 10000) n h1 h2]

theorem round4_one : round4 1 = 1 := by
  have := round4_eq_of 1 10000 (by norm_num) (by norm_num)
  rw [this]
  norm_num

end Lemmas

/-- The unit basis vector (1, 0, ..., 0) of length 512, used as a concrete
query embedding. -/
def e1vec : Vec := 1 :: List.replicate 511 0

theorem e1vec_length : e1vec.length = EMBEDDING_DIM := by
  rw [e1vec, List.length_cons, List.length_replicate]
  rfl

theorem one_mem_e1vec : (1 : ℝ) ∈ e1vec := List.mem_cons_self _ _

section ClaimsValidatorNormalizerScorer

/-- C3: for every finite non-zero vector of length 512, `normalize_embedding`
returns the vector with each element divided by its L2 norm; the result has
L2 norm exactly 1 (hence within the 1e-6 tolerance), and normalizing the
result again returns it unchanged (idempotence, here exact). -/
theorem C3_normalize_unit_idempotent (v : Vec) (_hlen : v.length = EMBEDDING_DIM)
    (hnz : ∃ x ∈ v, x ≠ 0) :
    normalize_embedding v = .ok (v.map fun x => x / norm v) ∧
    norm (v.map fun x => x / norm v) = 1 ∧
    |norm (v.map fun x => x / norm v) - 1| ≤ 1/1000000 ∧
    normalize_embedding (v.map fun x => x / norm v) =
      .ok (v.map fun x => x / norm v) := by
  obtain ⟨x, hx, hne⟩ := hnz
  have hpos : 0 < normSq v := normSq_pos_of_mem v x hx hne
  have hnorm_pos : 0 < norm v := Real.sqrt_pos.mpr hpos
  have hnorm_ne : norm v ≠ 0 := ne_of_gt hnorm_pos
  have hsq : norm v * norm v = normSq v := Real.mul_self_sqrt (le_of_lt hpos)
  have hu : norm (v.map fun x => x / norm v) = 1 := by
    apply norm_of_sq _ 1 (by norm_num)
    rw [normSq_map_div, hsq, one_pow]
    exact div_self (ne_of_gt hpos)
  refine ⟨normalize_of_norm_ne v hnorm_ne, hu, ?_, ?_⟩
  · rw [hu]
    norm_num
  · have h1 : norm (v.map fun x => x / norm v) ≠ 0 := by
      rw [hu]
      norm_num
    rw [normalize_of_norm_ne _ h1, hu]
    simp

/-- Witness for C3 at the concrete vector (1, 0, ..., 0) of length 512. -/
theorem C3_normalize_unit_idempotent_witness :
    (e1vec.length = EMBEDDING_DIM) ∧
    (∃ x ∈ e1vec, x ≠ 0) ∧
    (normalize_embedding e1vec = .ok (e1vec.map fun x => x / norm e1vec) ∧
    norm (e1vec.map fun x => x / norm e1vec) = 1 ∧
    |norm (e1vec.map fun x => x / norm e1vec) - 1| ≤ 1/1000000 ∧
    normalize_embedding (e1vec.map fun x => x / norm e1vec) =
      .ok (e1vec.map fun x => x / norm e1vec)) :=
  ⟨e1vec_length, ⟨1, one_mem_e1vec, one_ne_zero⟩,
    C3_normalize_unit_idempotent e1vec e1vec_length
      ⟨1, one_mem_e1vec, one_ne_zero⟩⟩

/-- C4 (amended): an input list whose elements all convert to numbers
(possibly NaN or infinite) and whose length differs from 512 is rejected
with the dimension-mismatch error; however, a list containing an element on
which the numpy conversion raises is rejected with the non-numeric error
regardless of its length, because the conversion runs before the dimension
check. -/
theorem C4_dim_mismatch_amended (l : List PyElem)
    (hconv : l.all PyElem.convertible = true)
    (hlen : l.length ≠ EMBEDDING_DIM) :
    safe_numpy_embedding (.list l) = .error .dimMismatch := by
  simp [safe_numpy_embedding, hconv, hlen]

/-- Witness for C4 (amended): a singleton list containing NaN — wrong length,
content entirely convertible though non-finite — is rejected with
`dimMismatch`. -/
theorem C4_dim_mismatch_amended_witness :
    ([PyElem.nan].all PyElem.convertible = true) ∧
    ([PyElem.nan].length ≠ EMBEDDING_DIM) ∧
    safe_numpy_embedding (.list [PyElem.nan]) = .error .dimMismatch :=
  ⟨by decide, by decide,
    C4_dim_mismatch_amended [PyElem.nan] (by decide) (by decide)⟩

/-- C4 counterexample: a list of length 1 (≠ 512) containing a non-numeric
element is rejected with the non-numeric conversion error, not with
`dimMismatch` — the dimension check is not independent of content. -/
theorem C4_counterexample :
    ([PyElem.nonNumeric].length ≠ EMBEDDING_DIM) ∧
    safe_numpy_embedding (.list [PyElem.nonNumeric]) = .error .nonNumeric ∧
    ValErr.nonNumeric ≠ ValErr.dimMismatch :=
  ⟨by decide, rfl, by decide⟩

/-- C7: `normalize_embedding` fails with the zero-norm error exactly when the
L2 norm of the vector is zero; in particular the all-zero vector of length
512 is always rejected with `zeroNorm`. -/
theorem C7_zero_norm (v : Vec) :
    (normalize_embedding v = .error .zeroNorm ↔ norm v = 0) ∧
    normalize_embedding (List.replicate EMBEDDING_DIM (0 : ℝ)) =
      .error .zeroNorm := by
  constructor
  · constructor
    · intro h
      by_contra hne
      rw [normalize_of_norm_ne v hne] at h
      cases h
    · intro h
      exact normalize_of_norm_zero v h
  · apply normalize_of_norm_zero
    rw [norm_eq_zero_iff]
    exact normSq_replicate_zero _

/-- C9: `cosine_similarity` is symmetric for all pairs of equal-length
vectors (in particular for unit vectors); it is a total function on real
vectors, so it never fails on finite inputs. -/
theorem C9_cosine_symmetric (a b : Vec) (_h : a.length = b.length) :
    cosine_similarity a b = cosine_similarity b a := by
  unfold cosine_similarity dot
  rw [List.zipWith_comm (fun x y => x * y)]
  simp [mul_comm]

/-- Witness for C9 at the concrete vectors (1, 2) and (3, 4). -/
theorem C9_cosine_symmetric_witness :
    (([1, 2] : Vec).length = ([3, 4] : Vec).length) ∧
    cosine_similarity [1, 2] [3, 4] = cosine_similarity [3, 4] [1, 2] :=
  ⟨rfl, C9_cosine_symmetric [1, 2] [3, 4] rfl⟩

end ClaimsValidatorNormalizerScorer

/-! ## The match endpoint -/

/-- The optional descriptive fields copied from a store record into a match
(`name`, `age`, `description`, `imageUrl`). -/
structure PersonMeta where
  name : Option String
  age : Option Int
  description : Option String
  imageUrl : Option String

/-- A store document that is a dict: its `embedding` field (possibly missing
or malformed, hence a `PyVal`) and its optional metadata. -/
structure PersonData where
  embedding : PyVal
  meta : PersonMeta

/-- One value of the store snapshot: either a dict document or something
else (skipped by the `isinstance(person_data, dict)` check). -/
inductive StoreRecord where
  | dict (pd : PersonData)
  | notDict

/-- A store snapshot: `data.items()` in enumeration order. -/
abbrev Store := List (String × StoreRecord)

/-- One entry of the response's match list: the record id, the reported
similarity (`round(similarity, 4)` in the source), and the copied
metadata. -/
structure Match where
  person_id : String
  similarity : ℝ
  meta : PersonMeta

/-- The success payload of `match_face`. -/
structure MatchResponse where
  matches_found : Nat
  threshold : ℝ
  matchList : List Match

/-- Request-aborting errors of `match_face` (each an HTTP 400 in the
source). `StoreUnavailable` (HTTP 500) is not modelled: the store snapshot
is an argument here. -/
inductive MatchError where
  | invalidThreshold
  | badQuery (e : ValErr)
  deriving DecidableEq

open Classical in
/-- The candidate loop of `match_face`: for each `(person_id, person_data)`
pair in enumeration order, skip non-dict records, run the stored embedding
through validation and normalization (skipping the record on any error),
score it against the query, and keep it — with the similarity rounded to 4
decimal places — when the unrounded similarity is at least the threshold. -/
noncomputable def collectMatches (q : Vec) (t : ℝ) : Store → List Match
  | [] => []
  | (pid, rec) :: rest =>
    match rec with
    | .notDict => collectMatches q t rest
    | .dict pd =>
      match (safe_numpy_embedding pd.embedding).bind normalize_embedding with
      | .error _ => collectMatches q t rest
      | .ok se =>
        if cosine_similarity q se ≥ t then
          ⟨pid, round4 (cosine_similarity q se), pd.meta⟩ ::
            collectMatches q t rest
        else collectMatches q t rest

open Classical in
/-- Stable insertion into a descending-sorted list: the new element goes
after every element whose key is at least as large. This is the insertion
step of the unique stable descending sort, which is what Python's
`list.sort(key=..., reverse=True)` computes. -/
noncomputable def insertKey {α : Type} (key : α → ℝ) (m : α) :
    List α → List α
  | [] => [m]
  | y :: ys =>
    if key y ≤ key m then m :: y :: ys else y :: insertKey key m ys

/-- Stable descending insertion sort by a real-valued key. -/
noncomputable def sortKey {α : Type} (key : α → ℝ) : List α → List α
  | [] => []
  | m :: ms => insertKey key m (sortKey key ms)

/-- `matches.sort(key=lambda x: x["similarity"], reverse=True)`: the stable
descending sort of the match list by its (rounded) similarity field. -/
noncomputable def sortDesc (l : List Match) : List Match :=
  sortKey Match.similarity l

open Classical in
/-- Model of the `match_face` endpoint on the JSON-embedding path: validate
the threshold, validate and normalize the query embedding, run the
candidate loop over the store snapshot, sort descending by the rounded
similarity, and return the first 5 matches together with their count and
the effective threshold. -/
noncomputable def match_face (qraw : PyVal) (store : Store) (threshold : ℝ) :
    Except MatchError MatchResponse :=
  if ¬ (0 ≤ threshold ∧ threshold ≤ 1) then .error .invalidThreshold
  else
    match (safe_numpy_embedding qraw).bind normalize_embedding with
    | .error e => .error (.badQuery e)
    | .ok q =>
      let top := (sortDesc (collectMatches q threshold store)).take 5
      .ok ⟨top.length, threshold, top⟩

section SortLemmas

variable {α : Type} (key : α → ℝ)

theorem insertKey_length (m : α) (l : List α) :
    (insertKey key m l).length = l.length + 1 := by
  induction l with
  | nil => simp [insertKey]
  | cons y ys ih =>
    unfold insertKey
    by_cases h : key y ≤ key m
    · rw [if_pos h]
      simp
    · rw [if_neg h]
      simp [ih]

theorem sortKey_length (l : List α) : (sortKey key l).length = l.length := by
  induction l with
  | nil => simp [sortKey]
  | cons m ms ih =>
    unfold sortKey
    rw [insertKey_length, ih]
    simp

theorem mem_insertKey (a m : α) (l : List α) :
    a ∈ insertKey key m l ↔ a = m ∨ a ∈ l := by
  induction l with
  | nil => simp [insertKey]
  | cons y ys ih =>
    unfold insertKey
    by_cases h : key y ≤ key m
    · rw [if_pos h]
      simp
    · rw [if_neg h]
      simp only [List.mem_cons, ih]
      tauto

theorem mem_sortKey (a : α) (l : List α) : a ∈ sortKey key l ↔ a ∈ l := by
  induction l with
  | nil => simp [sortKey]
  | cons m ms ih =>
    unfold sortKey
    rw [mem_insertKey, ih]
    simp

theorem insertKey_pairwise (m : α) (l : List α)
    (h : l.Pairwise fun a b => key b ≤ key a) :
    (insertKey key m l).Pairwise fun a b => key b ≤ key a := by
  induction l with
  | nil => simp [insertKey]
  | cons y ys ih =>
    unfold insertKey
    rcases List.pairwise_cons.mp h with ⟨hy, hys⟩
    by_cases hc : key y ≤ key m
    · rw [if_pos hc]
      refine List.pairwise_cons.mpr ⟨?_, h⟩
      intro b hb
      rcases List.mem_cons.mp hb with hb | hb
      · subst hb
        exact hc
      · exact le_trans (hy b hb) hc
    · rw [if_neg hc]
      refine List.pairwise_cons.mpr ⟨?_, ih hys⟩
      intro b hb
      rcases (mem_insertKey key b m ys).mp hb with hb | hb
      · subst hb
        exact le_of_not_le hc
      · exact hy b hb

theorem sortKey_pairwise (l : List α) :
    (sortKey key l).Pairwise fun a b => key b ≤ key a := by
  induction l with
  | nil => simp [sortKey]
  | cons m ms ih =>
    unfold sortKey
    exact insertKey_pairwise key m _ ih

open Classical in
/-- The sublist of elements whose key equals `k`, in list order (used to
state stability of the sort). -/
noncomputable def keyFilter (k : ℝ) (l : List α) : List α :=
  l.filter fun a => decide (key a = k)

open Classical in
theorem keyFilter_insertKey (k : ℝ) (m : α) (l : List α) :
    keyFilter key k (insertKey key m l) =
      if key m = k then m :: keyFilter key k l else keyFilter key k l := by
  induction l with
  | nil =>
    by_cases hm : key m = k <;> simp [insertKey, keyFilter, hm]
  | cons y ys ih =>
    unfold insertKey
    by_cases hc : key y ≤ key m
    · rw [if_pos hc]
      by_cases hm : key m = k <;> simp [keyFilter, hm]
    · rw [if_neg hc]
      have hlt : key m < key y := lt_of_not_le hc
      by_cases hm : key m = k
      · have hy : ¬ key y = k := by
          intro he
          rw [hm] at hlt
          rw [he] at hlt
          exact lt_irrefl _ hlt
        simp only [keyFilter] at ih ⊢
        simp [hy, hm, ih]
      · by_cases hy : key y = k <;>
          simp only [keyFilter] at ih ⊢ <;> simp [hy, hm, ih]

open Classical in
/-- Stability of the descending sort: elements with equal keys keep their
original relative order. -/
theorem keyFilter_sortKey (k : ℝ) (l : List α) :
    keyFilter key k (sortKey key l) = keyFilter key k l := by
  induction l with
  | nil => simp [sortKey]
  | cons m ms ih =>
    unfold sortKey
    rw [keyFilter_insertKey, ih]
    by_cases hm : key m = k <;> simp [keyFilter, hm]

end SortLemmas

section CollectLemmas

theorem collect_nil (q : Vec) (t : ℝ) : collectMatches q t [] = [] := by
  simp [collectMatches]

theorem collect_cons_notDict (q : Vec) (t : ℝ) (pid : String) (rest : Store) :
    collectMatches q t ((pid, .notDict) :: rest) = collectMatches q t rest := by
  simp [collectMatches]

theorem collect_cons_err (q : Vec) (t : ℝ) (pid : String) (pd : PersonData)
    (rest : Store) (e : ValErr)
    (he : (safe_numpy_embedding pd.embedding).bind normalize_embedding =
      .error e) :
    collectMatches q t ((pid, .dict pd) :: rest) = collectMatches q t rest := by
  simp [collectMatches, he]

theorem collect_cons_ok_ge (q : Vec) (t : ℝ) (pid : String) (pd : PersonData)
    (rest : Store) (u : Vec)
    (hu : (safe_numpy_embedding pd.embedding).bind normalize_embedding = .ok u)
    (hge : cosine_similarity q u ≥ t) :
    collectMatches q t ((pid, .dict pd) :: rest) =
      ⟨pid, round4 (cosine_similarity q u), pd.meta⟩ ::
        collectMatches q t rest := by
  simp [collectMatches, hu, hge]

theorem collect_cons_ok_lt (q : Vec) (t : ℝ) (pid : String) (pd : PersonData)
    (rest : Store) (u : Vec)
    (hu : (safe_numpy_embedding pd.embedding).bind normalize_embedding = .ok u)
    (hlt : ¬ cosine_similarity q u ≥ t) :
    collectMatches q t ((pid, .dict pd) :: rest) = collectMatches q t rest := by
  simp [collectMatches, hu, hlt]

theorem collect_length_antitone (q : Vec) (s : Store) {t1 t2 : ℝ}
    (h : t1 ≤ t2) :
    (collectMatches q t2 s).length ≤ (collectMatches q t1 s).length := by
  induction s with
  | nil => simp [collect_nil]
  | cons p rest ih =>
    obtain ⟨pid, rec⟩ := p
    cases rec with
    | notDict =>
      rw [collect_cons_notDict, collect_cons_notDict]
      exact ih
    | dict pd =>
      cases hb : (safe_numpy_embedding pd.embedding).bind normalize_embedding with
      | error e =>
        rw [collect_cons_err q t2 pid pd rest e hb,
          collect_cons_err q t1 pid pd rest e hb]
        exact ih
      | ok se =>
        by_cases h2 : cosine_similarity q se ≥ t2
        · have h1 : cosine_similarity q se ≥ t1 := le_trans h h2
          rw [collect_cons_ok_ge q t2 pid pd rest se hb h2,
            collect_cons_ok_ge q t1 pid pd rest se hb h1]
          simpa using ih
        · rw [collect_cons_ok_lt q t2 pid pd rest se hb h2]
          by_cases h1 : cosine_similarity q se ≥ t1
          · rw [collect_cons_ok_ge q t1 pid pd rest se hb h1]
            exact le_trans ih (by simp)
          · rw [collect_cons_ok_lt q t1 pid pd rest se hb h1]
            exact ih

end CollectLemmas

section MatchFaceLemmas

theorem match_face_eval (qraw : PyVal) (store : Store) (t : ℝ) (q : Vec)
    (hv : 0 ≤ t ∧ t ≤ 1)
    (hq : (safe_numpy_embedding qraw).bind normalize_embedding = .ok q) :
    match_face qraw store t =
      .ok ⟨((sortDesc (collectMatches q t store)).take 5).length, t,
        (sortDesc (collectMatches q t store)).take 5⟩ := by
  unfold match_face
  rw [if_neg (not_not_intro hv), hq]

theorem match_face_ok_inv (qraw : PyVal) (store : Store) (t : ℝ)
    (resp : MatchResponse) (h : match_face qraw store t = .ok resp) :
    (0 ≤ t ∧ t ≤ 1) ∧
    ∃ q, (safe_numpy_embedding qraw).bind normalize_embedding = .ok q ∧
      resp = ⟨((sortDesc (collectMatches q t store)).take 5).length, t,
        (sortDesc (collectMatches q t store)).take 5⟩ := by
  by_cases hv : 0 ≤ t ∧ t ≤ 1
  · refine ⟨hv, ?_⟩
    cases hb : (safe_numpy_embedding qraw).bind normalize_embedding with
    | error e =>
      unfold match_face at h
      rw [if_neg (not_not_intro hv), hb] at h
      cases h
    | ok q =>
      rw [match_face_eval qraw store t q hv hb] at h
      refine ⟨q, rfl, ?_⟩
      injection h with h2
      exact h2.symm
  · unfold match_face at h
    rw [if_pos hv] at h
    cases h

end MatchFaceLemmas

section ClaimsThreshold

/-- C5: a threshold outside [0,1] makes `match_face` fail with
`invalidThreshold`, whatever the query and the store snapshot; the result
does not depend on the store at all (no store access is needed) and no
candidate is scored. -/
theorem C5_invalid_threshold (qraw : PyVal) (store : Store) (t : ℝ)
    (h : ¬ (0 ≤ t ∧ t ≤ 1)) :
    match_face qraw store t = .error .invalidThreshold ∧
    ∀ store2 : Store, match_face qraw store t = match_face qraw store2 t := by
  have h1 : ∀ s : Store, match_face qraw s t = .error .invalidThreshold := by
    intro s
    unfold match_face
    rw [if_pos h]
  exact ⟨h1 store, fun store2 => by rw [h1 store, h1 store2]⟩

/-- Witness for C5 at the concrete threshold 1.5 (the spec's scenario). -/
theorem C5_invalid_threshold_witness :
    (¬ ((0 : ℝ) ≤ 3/2 ∧ (3/2 : ℝ) ≤ 1)) ∧
    match_face .notList [] (3/2) = .error .invalidThreshold :=
  ⟨by norm_num, (C5_invalid_threshold .notList [] (3/2) (by norm_num)).1⟩

/-- C6: for a fixed query and fixed store snapshot, raising the threshold
never increases `matches_found`. -/
theorem C6_threshold_monotone (qraw : PyVal) (store : Store) (t1 t2 : ℝ)
    (r1 r2 : MatchResponse) (h12 : t1 ≤ t2)
    (e1 : match_face qraw store t1 = .ok r1)
    (e2 : match_face qraw store t2 = .ok r2) :
    r2.matches_found ≤ r1.matches_found := by
  obtain ⟨_, q1, hq1, hr1⟩ := match_face_ok_inv qraw store t1 r1 e1
  obtain ⟨_, q2, hq2, hr2⟩ := match_face_ok_inv qraw store t2 r2 e2
  have hq : q2 = q1 := by
    rw [hq1] at hq2
    injection hq2 with h2
    exact h2.symm
  subst hq
  rw [hr1, hr2]
  simp only [List.length_take, sortDesc, sortKey_length]
  exact min_le_min (le_refl 5) (collect_length_antitone q2 store h12)

end ClaimsThreshold

section ConcreteEval

theorem normSq_e1vec : normSq e1vec = 1 := by
  rw [e1vec, normSq_cons, normSq_replicate_zero]
  norm_num

theorem norm_e1vec : norm e1vec = 1 := by
  apply norm_of_sq _ 1 (by norm_num)
  rw [normSq_e1vec]
  norm_num

theorem normalize_e1vec : normalize_embedding e1vec = .ok e1vec := by
  rw [normalize_of_norm_ne _ (by rw [norm_e1vec]; norm_num), norm_e1vec]
  simp

/-- The validated-and-normalized query pipeline succeeds on the raw form of
the basis vector and returns it unchanged. -/
theorem query_e1vec :
    (safe_numpy_embedding (rawOf e1vec)).bind normalize_embedding =
      .ok e1vec := by
  rw [safe_rawOf e1vec e1vec_length]
  exact normalize_e1vec

theorem dot_e1vec (x : ℝ) (l : Vec) : dot e1vec (x :: l) = x := by
  rw [e1vec, dot_cons, dot_replicate_zero_left]
  ring

theorem sim_e1vec_self : cosine_similarity e1vec e1vec = 1 := by
  unfold cosine_similarity
  exact dot_e1vec 1 (List.replicate 511 0)

/-- Empty metadata record. -/
def meta0 : PersonMeta := ⟨none, none, none, none⟩

/-- A one-record store holding the basis vector under id "a". -/
def storeA : Store := [("a", .dict ⟨rawOf e1vec, meta0⟩)]

theorem collect_storeA (t : ℝ) (ht : t ≤ 1) :
    collectMatches e1vec t storeA = [⟨"a", 1, meta0⟩] := by
  rw [storeA,
    collect_cons_ok_ge e1vec t "a" ⟨rawOf e1vec, meta0⟩ [] e1vec query_e1vec
      (by rw [sim_e1vec_self]; exact ht),
    collect_nil, sim_e1vec_self, round4_one]

theorem sortDesc_single (m : Match) : sortDesc [m] = [m] := by
  simp [sortDesc, sortKey, insertKey]

theorem match_face_storeA (t : ℝ) (h0 : 0 ≤ t) (h1 : t ≤ 1) :
    match_face (rawOf e1vec) storeA t = .ok ⟨1, t, [⟨"a", 1, meta0⟩]⟩ := by
  rw [match_face_eval (rawOf e1vec) storeA t e1vec ⟨h0, h1⟩ query_e1vec,
    collect_storeA t h1, sortDesc_single]
  rfl

end ConcreteEval

section ClaimC6Witness

/-- Witness for C6: same query and store at thresholds 0.5 and 0.9; the
count at the higher threshold does not exceed the count at the lower. -/
theorem C6_threshold_monotone_witness :
    ((1 : ℝ)/2 ≤ 9/10) ∧
    match_face (rawOf e1vec) storeA (1/2) = .ok ⟨1, 1/2, [⟨"a", 1, meta0⟩]⟩ ∧
    match_face (rawOf e1vec) storeA (9/10) = .ok ⟨1, 9/10, [⟨"a", 1, meta0⟩]⟩ ∧
    (MatchResponse.matches_found ⟨1, 9/10, [⟨"a", 1, meta0⟩]⟩ ≤
      MatchResponse.matches_found ⟨1, 1/2, [⟨"a", 1, meta0⟩]⟩) :=
  ⟨by norm_num, match_face_storeA (1/2) (by norm_num) (by norm_num),
    match_face_storeA (9/10) (by norm_num) (by norm_num),
    C6_threshold_monotone (rawOf e1vec) storeA (1/2) (9/10) _ _ (by norm_num)
      (match_face_storeA (1/2) (by norm_num) (by norm_num))
      (match_face_storeA (9/10) (by norm_num) (by norm_num))⟩

end ClaimC6Witness

section ClaimC2

theorem collect_append (q : Vec) (t : ℝ) (s1 s2 : Store) :
    collectMatches q t (s1 ++ s2) =
      collectMatches q t s1 ++ collectMatches q t s2 := by
  induction s1 with
  | nil => simp [collect_nil]
  | cons p rest ih =>
    obtain ⟨pid, rec⟩ := p
    cases rec with
    | notDict =>
      rw [List.cons_append, collect_cons_notDict, collect_cons_notDict, ih]
    | dict pd =>
      cases hb : (safe_numpy_embedding pd.embedding).bind normalize_embedding with
      | error e =>
        rw [List.cons_append, collect_cons_err q t pid pd _ e hb,
          collect_cons_err q t pid pd _ e hb, ih]
      | ok se =>
        by_cases hge : cosine_similarity q se ≥ t
        · rw [List.cons_append, collect_cons_ok_ge q t pid pd _ se hb hge,
            collect_cons_ok_ge q t pid pd _ se hb hge, ih, List.cons_append]
        · rw [List.cons_append, collect_cons_ok_lt q t pid pd _ se hb hge,
            collect_cons_ok_lt q t pid pd _ se hb hge, ih]

/-- Every match produced by the candidate loop comes from a well-formed
dict record of the store whose stored embedding validated and normalized
successfully and scored at least the threshold. -/
theorem collect_mem (q : Vec) (t : ℝ) (store : Store) (m : Match)
    (h : m ∈ collectMatches q t store) :
    ∃ pd : PersonData, (m.person_id, StoreRecord.dict pd) ∈ store ∧
      ∃ u, (safe_numpy_embedding pd.embedding).bind normalize_embedding =
          .ok u ∧
        cosine_similarity q u ≥ t ∧
        m.similarity = round4 (cosine_similarity q u) ∧ m.meta = pd.meta := by
  induction store with
  | nil =>
    rw [collect_nil] at h
    cases h
  | cons p rest ih =>
    obtain ⟨pid, rec⟩ := p
    cases rec with
    | notDict =>
      rw [collect_cons_notDict] at h
      obtain ⟨pd, hmem, hrest⟩ := ih h
      exact ⟨pd, List.mem_cons_of_mem _ hmem, hrest⟩
    | dict pd =>
      cases hb : (safe_numpy_embedding pd.embedding).bind normalize_embedding with
      | error e =>
        rw [collect_cons_err q t pid pd rest e hb] at h
        obtain ⟨pd2, hmem, hrest⟩ := ih h
        exact ⟨pd2, List.mem_cons_of_mem _ hmem, hrest⟩
      | ok se =>
        by_cases hge : cosine_similarity q se ≥ t
        · rw [collect_cons_ok_ge q t pid pd rest se hb hge] at h
          rcases List.mem_cons.mp h with he | h2
          · subst he
            exact ⟨pd, List.mem_cons_self _ _, se, hb, hge, rfl, rfl⟩
          · obtain ⟨pd2, hmem, hrest⟩ := ih h2
            exact ⟨pd2, List.mem_cons_of_mem _ hmem, hrest⟩
        · rw [collect_cons_ok_lt q t pid pd rest se hb hge] at h
          obtain ⟨pd2, hmem, hrest⟩ := ih h
          exact ⟨pd2, List.mem_cons_of_mem _ hmem, hrest⟩

/-- C2: with a valid threshold and a valid query, the request always
succeeds no matter what the store holds; every returned match stems from a
well-formed record that survived validation, normalization and the
threshold test (so a malformed record never appears in the output); and
deleting any malformed record — non-dict, or with an embedding that fails
validation or normalization — from the snapshot leaves the response
unchanged (the remaining candidates are ranked exactly as before). -/
theorem C2_malformed_skipped (qraw : PyVal) (store : Store) (t : ℝ) (q : Vec)
    (hv : 0 ≤ t ∧ t ≤ 1)
    (hq : (safe_numpy_embedding qraw).bind normalize_embedding = .ok q) :
    (∃ resp, match_face qraw store t = .ok resp ∧
      ∀ m ∈ resp.matchList, ∃ pd : PersonData,
        (m.person_id, StoreRecord.dict pd) ∈ store ∧
        ∃ u, (safe_numpy_embedding pd.embedding).bind normalize_embedding =
            .ok u ∧
          cosine_similarity q u ≥ t ∧
          m.similarity = round4 (cosine_similarity q u) ∧ m.meta = pd.meta) ∧
    (∀ pre post : Store, ∀ pid : String, ∀ rec : StoreRecord,
      store = pre ++ (pid, rec) :: post →
      (∀ pd : PersonData, rec = .dict pd →
        ∃ e, (safe_numpy_embedding pd.embedding).bind normalize_embedding =
          .error e) →
      match_face qraw (pre ++ post) t = match_face qraw store t) := by
  constructor
  · refine ⟨_, match_face_eval qraw store t q hv hq, ?_⟩
    intro m hm
    have h1 : m ∈ sortDesc (collectMatches q t store) :=
      List.mem_of_mem_take hm
    have h2 : m ∈ collectMatches q t store :=
      (mem_sortKey Match.similarity m _).mp h1
    exact collect_mem q t store m h2
  · intro pre post pid rec hst hbad
    subst hst
    have hskip : collectMatches q t ((pid, rec) :: post) =
        collectMatches q t post := by
      cases rec with
      | notDict => exact collect_cons_notDict q t pid post
      | dict pd =>
        obtain ⟨e, he⟩ := hbad pd rfl
        exact collect_cons_err q t pid pd post e he
    rw [match_face_eval qraw (pre ++ post) t q hv hq,
      match_face_eval qraw (pre ++ (pid, rec) :: post) t q hv hq,
      collect_append, collect_append, hskip]

/-- A malformed stored record: a 10-element embedding (the spec's
scenario). -/
def badPD : PersonData := ⟨.list (List.replicate 10 (PyElem.num 1)), meta0⟩

theorem badPD_err :
    (safe_numpy_embedding badPD.embedding).bind normalize_embedding =
      .error .dimMismatch := rfl

/-- Witness for C2: a store holding the valid record "a" and a record "bad"
whose embedding has 10 elements; the request succeeds, only "a" is
reported, and deleting "bad" leaves the response unchanged. -/
theorem C2_malformed_skipped_witness :
    ((0 : ℝ) ≤ 1/2 ∧ (1/2 : ℝ) ≤ 1) ∧
    (safe_numpy_embedding (rawOf e1vec)).bind normalize_embedding =
      .ok e1vec ∧
    match_face (rawOf e1vec) (storeA ++ [("bad", .dict badPD)]) (1/2) =
      .ok ⟨1, 1/2, [⟨"a", 1, meta0⟩]⟩ ∧
    match_face (rawOf e1vec) (storeA ++ []) (1/2) =
      match_face (rawOf e1vec) (storeA ++ ("bad", .dict badPD) :: []) (1/2) := by
  have hv : (0 : ℝ) ≤ 1/2 ∧ (1/2 : ℝ) ≤ 1 := by norm_num
  have hdel := (C2_malformed_skipped (rawOf e1vec)
    (storeA ++ ("bad", .dict badPD) :: []) (1/2) e1vec hv query_e1vec).2
    storeA [] "bad" (.dict badPD) rfl
    (fun pd hpd => by
      cases hpd
      exact ⟨.dimMismatch, badPD_err⟩)
  refine ⟨hv, query_e1vec, ?_, hdel⟩
  rw [← hdel]
  simpa using match_face_storeA (1/2) (by norm_num) (by norm_num)

end ClaimC2

section ClaimC1

open Classical in
/-- The list of surviving candidates that pass the threshold, in store
enumeration order, each carrying its rounded similarity — the candidate
loop of `match_face` written as one `filterMap` over the snapshot. -/
noncomputable def matchCandidates (q : Vec) (t : ℝ) (store : Store) :
    List Match :=
  store.filterMap fun pr =>
    match pr.2 with
    | .notDict => none
    | .dict pd =>
      match (safe_numpy_embedding pd.embedding).bind normalize_embedding with
      | .error _ => none
      | .ok se =>
        if cosine_similarity q se ≥ t then
          some ⟨pr.1, round4 (cosine_similarity q se), pd.meta⟩
        else none

theorem collect_eq_matchCandidates (q : Vec) (t : ℝ) (store : Store) :
    collectMatches q t store = matchCandidates q t store := by
  induction store with
  | nil =>
    rw [collect_nil]
    simp [matchCandidates]
  | cons p rest ih =>
    obtain ⟨pid, rec⟩ := p
    cases rec with
    | notDict =>
      rw [collect_cons_notDict, ih]
      simp [matchCandidates, List.filterMap_cons]
    | dict pd =>
      cases hb : (safe_numpy_embedding pd.embedding).bind normalize_embedding with
      | error e =>
        rw [collect_cons_err q t pid pd rest e hb, ih]
        simp [matchCandidates, List.filterMap_cons, hb]
      | ok se =>
        by_cases hge : cosine_similarity q se ≥ t
        · rw [collect_cons_ok_ge q t pid pd rest se hb hge, ih]
          simp [matchCandidates, List.filterMap_cons, hb, hge]
        · rw [collect_cons_ok_lt q t pid pd rest se hb hge, ih]
          simp [matchCandidates, List.filterMap_cons, hb, hge]

/-- C1 (amended): the Match Set is obtained from the surviving candidates
whose unrounded score is at least the threshold (in enumeration order) by
the stable descending sort on the ROUNDED similarity stored in each match,
truncated to at most 5 entries; it is sorted descending by that rounded
similarity and ties in it keep the store's enumeration order. (The sort key
is the rounded similarity, not the exact score — see the counterexample.) -/
theorem C1_ranking_amended (qraw : PyVal) (store : Store) (t : ℝ)
    (resp : MatchResponse) (h : match_face qraw store t = .ok resp) :
    ∃ q, (safe_numpy_embedding qraw).bind normalize_embedding = .ok q ∧
      resp.matchList = (sortDesc (matchCandidates q t store)).take 5 ∧
      resp.matchList.length ≤ 5 ∧
      resp.matchList.Pairwise (fun a b => b.similarity ≤ a.similarity) ∧
      ∀ k : ℝ,
        keyFilter Match.similarity k (sortDesc (matchCandidates q t store)) =
          keyFilter Match.similarity k (matchCandidates q t store) := by
  obtain ⟨hv, q, hq, hr⟩ := match_face_ok_inv qraw store t resp h
  subst hr
  refine ⟨q, hq, ?_, ?_, ?_, ?_⟩
  · dsimp only
    rw [collect_eq_matchCandidates]
  · exact List.length_take_le _ _
  · exact (sortKey_pairwise Match.similarity _).sublist (List.take_sublist _ _)
  · intro k
    rw [← collect_eq_matchCandidates, sortDesc]
    exact keyFilter_sortKey Match.similarity k _

/-- Witness for C1 (amended) at the one-record store `storeA` with
threshold 0.5. -/
theorem C1_ranking_amended_witness :
    match_face (rawOf e1vec) storeA (1/2) =
      .ok ⟨1, 1/2, [⟨"a", 1, meta0⟩]⟩ ∧
    ∃ q, (safe_numpy_embedding (rawOf e1vec)).bind normalize_embedding =
        .ok q ∧
      (⟨1, 1/2, [⟨"a", 1, meta0⟩]⟩ : MatchResponse).matchList =
        (sortDesc (matchCandidates q (1/2) storeA)).take 5 ∧
      (⟨1, 1/2, [⟨"a", 1, meta0⟩]⟩ : MatchResponse).matchList.length ≤ 5 ∧
      (⟨1, 1/2, [⟨"a", 1, meta0⟩]⟩ :
        MatchResponse).matchList.Pairwise
          (fun a b => b.similarity ≤ a.similarity) ∧
      ∀ k : ℝ,
        keyFilter Match.similarity k
            (sortDesc (matchCandidates q (1/2) storeA)) =
          keyFilter Match.similarity k (matchCandidates q (1/2) storeA) :=
  ⟨match_face_storeA (1/2) (by norm_num) (by norm_num),
    C1_ranking_amended (rawOf e1vec) storeA (1/2) _
      (match_face_storeA (1/2) (by norm_num) (by norm_num))⟩

end ClaimC1

section ConcreteCounterexample

/-- A candidate vector with sum of squares 25000², whose exact similarity
to the basis query is 15001/25000 = 0.60004 (rounding to 0.6000). -/
def aVec : Vec := 15001 :: 19999 :: 99 :: 14 :: 1 :: List.replicate 507 0

/-- A candidate vector with sum of squares 250000², whose exact similarity
to the basis query is 150011/250000 = 0.600044 (also rounding to 0.6000,
but strictly larger than aVec's exact similarity). -/
def bVec : Vec := 150011 :: 199991 :: 546 :: 29 :: 29 :: List.replicate 507 0

theorem aVec_length : aVec.length = EMBEDDING_DIM := by
  rw [aVec]
  simp only [List.length_cons, List.length_replicate]
  rfl

theorem bVec_length : bVec.length = EMBEDDING_DIM := by
  rw [bVec]
  simp only [List.length_cons, List.length_replicate]
  rfl

theorem normSq_aVec : normSq aVec = 25000 ^ 2 := by
  rw [aVec, normSq_cons, normSq_cons, normSq_cons, normSq_cons, normSq_cons,
    normSq_replicate_zero]
  norm_num

theorem normSq_bVec : normSq bVec = 250000 ^ 2 := by
  rw [bVec, normSq_cons, normSq_cons, normSq_cons, normSq_cons, normSq_cons,
    normSq_replicate_zero]
  norm_num

theorem norm_aVec : norm aVec = 25000 :=
  norm_of_sq _ _ (by norm_num) normSq_aVec

theorem norm_bVec : norm bVec = 250000 :=
  norm_of_sq _ _ (by norm_num) normSq_bVec

theorem cand_aVec :
    (safe_numpy_embedding (rawOf aVec)).bind normalize_embedding =
      .ok (aVec.map fun x => x / 25000) := by
  rw [safe_rawOf aVec aVec_length]
  show normalize_embedding aVec = _
  rw [normalize_of_norm_ne _ (by rw [norm_aVec]; norm_num), norm_aVec]

theorem cand_bVec :
    (safe_numpy_embedding (rawOf bVec)).bind normalize_embedding =
      .ok (bVec.map fun x => x / 250000) := by
  rw [safe_rawOf bVec bVec_length]
  show normalize_embedding bVec = _
  rw [normalize_of_norm_ne _ (by rw [norm_bVec]; norm_num), norm_bVec]

theorem sim_aVec :
    cosine_similarity e1vec (aVec.map fun x => x / 25000) = 15001/25000 := by
  rw [aVec]
  simp only [List.map_cons]
  unfold cosine_similarity
  rw [dot_e1vec]

theorem sim_bVec :
    cosine_similarity e1vec (bVec.map fun x => x / 250000) =
      150011/250000 := by
  rw [bVec]
  simp only [List.map_cons]
  unfold cosine_similarity
  rw [dot_e1vec]

theorem round4_simA : round4 (15001/25000) = 3/5 := by
  have h := round4_eq_of (15001/25000) 6000 (by norm_num) (by norm_num)
  rw [h]
  norm_num

theorem round4_simB : round4 (150011/250000) = 3/5 := by
  have h := round4_eq_of (150011/250000) 6000 (by norm_num) (by norm_num)
  rw [h]
  norm_num

/-- A two-record store: "a" (exact similarity 0.60004) enumerated before
"b" (exact similarity 0.600044); both similarities round to 0.6000. -/
def storeAB : Store :=
  [("a", .dict ⟨rawOf aVec, meta0⟩), ("b", .dict ⟨rawOf bVec, meta0⟩)]

/-- A one-record store holding only "a". -/
def storeA2 : Store := [("a", .dict ⟨rawOf aVec, meta0⟩)]

theorem collect_storeAB :
    collectMatches e1vec (59/100) storeAB =
      [⟨"a", 3/5, meta0⟩, ⟨"b", 3/5, meta0⟩] := by
  rw [storeAB,
    collect_cons_ok_ge e1vec (59/100) "a" ⟨rawOf aVec, meta0⟩ _ _ cand_aVec
      (by rw [sim_aVec]; norm_num),
    collect_cons_ok_ge e1vec (59/100) "b" ⟨rawOf bVec, meta0⟩ _ _ cand_bVec
      (by rw [sim_bVec]; norm_num),
    collect_nil, sim_aVec, sim_bVec, round4_simA, round4_simB]

theorem sortDesc_AB :
    sortDesc [(⟨"a", 3/5, meta0⟩ : Match), ⟨"b", 3/5, meta0⟩] =
      [⟨"a", 3/5, meta0⟩, ⟨"b", 3/5, meta0⟩] := by
  unfold sortDesc
  show insertKey _ _ (insertKey _ _ (sortKey _ [])) = _
  rw [show sortKey Match.similarity ([] : List Match) = [] from rfl]
  show insertKey _ _ [(⟨"b", 3/5, meta0⟩ : Match)] = _
  unfold insertKey
  rw [if_pos (le_refl _)]

theorem match_face_storeAB :
    match_face (rawOf e1vec) storeAB (59/100) =
      .ok ⟨2, 59/100, [⟨"a", 3/5, meta0⟩, ⟨"b", 3/5, meta0⟩]⟩ := by
  rw [match_face_eval (rawOf e1vec) storeAB (59/100) e1vec
      ⟨by norm_num, by norm_num⟩ query_e1vec, collect_storeAB, sortDesc_AB]
  rfl

theorem collect_storeA2 :
    collectMatches e1vec (60002/100000) storeA2 = [⟨"a", 3/5, meta0⟩] := by
  rw [storeA2,
    collect_cons_ok_ge e1vec (60002/100000) "a" ⟨rawOf aVec, meta0⟩ _ _
      cand_aVec (by rw [sim_aVec]; norm_num),
    collect_nil, sim_aVec, round4_simA]

theorem match_face_storeA2 :
    match_face (rawOf e1vec) storeA2 (60002/100000) =
      .ok ⟨1, 60002/100000, [⟨"a", 3/5, meta0⟩]⟩ := by
  rw [match_face_eval (rawOf e1vec) storeA2 (60002/100000) e1vec
      ⟨by norm_num, by norm_num⟩ query_e1vec, collect_storeA2,
    sortDesc_single]
  rfl

end ConcreteCounterexample

section SpecRanking

/-- A surviving candidate together with its EXACT (unrounded) similarity
score, as the claim's wording ranks them. -/
structure ScoredEntry where
  person_id : String
  score : ℝ
  meta : PersonMeta

open Classical in
/-- The surviving candidates with their exact scores, in store enumeration
order (same survivors and same filter as the code's loop). -/
noncomputable def survivors (q : Vec) (t : ℝ) (store : Store) :
    List ScoredEntry :=
  store.filterMap fun pr =>
    match pr.2 with
    | .notDict => none
    | .dict pd =>
      match (safe_numpy_embedding pd.embedding).bind normalize_embedding with
      | .error _ => none
      | .ok se =>
        if cosine_similarity q se ≥ t then
          some ⟨pr.1, cosine_similarity q se, pd.meta⟩
        else none

/-- The claim's reading of the ranking step, written from its words: sort
the surviving candidates descending by their exact score against the query
(stable, ties keeping enumeration order), truncate to 5, and report the
candidate ids in that order. -/
noncomputable def specRankedIds (q : Vec) (t : ℝ) (store : Store) :
    List String :=
  ((sortKey ScoredEntry.score (survivors q t store)).take 5).map
    ScoredEntry.person_id

theorem survivors_AB :
    survivors e1vec (59/100) storeAB =
      [⟨"a", 15001/25000, meta0⟩, ⟨"b", 150011/250000, meta0⟩] := by
  unfold survivors storeAB
  rw [List.filterMap_cons, List.filterMap_cons, List.filterMap_nil]
  simp only [cand_aVec, cand_bVec, sim_aVec, sim_bVec]
  rw [if_pos (by norm_num), if_pos (by norm_num)]

theorem specRankedIds_AB :
    specRankedIds e1vec (59/100) storeAB = ["b", "a"] := by
  unfold specRankedIds
  rw [survivors_AB]
  show ((insertKey _ _ (insertKey _ _ (sortKey _ []))).take 5).map _ = _
  rw [show sortKey ScoredEntry.score ([] : List ScoredEntry) = [] from rfl]
  rw [show insertKey ScoredEntry.score ⟨"b", 150011/250000, meta0⟩ [] =
    [(⟨"b", 150011/250000, meta0⟩ : ScoredEntry)] from rfl]
  unfold insertKey
  rw [if_neg (by norm_num)]
  rfl

/-- C1 counterexample: the code returns "a" before "b" (equal rounded
similarities, enumeration order kept by the stable sort), yet "b" has the
strictly larger exact score against the query — so the Match Set is NOT
sorted descending by the (exact) score with ties on it broken by
enumeration order, as the claim states: the claim's own ranking of this
store is ["b", "a"], the code's is ["a", "b"]. -/
theorem C1_ranking_counterexample :
    match_face (rawOf e1vec) storeAB (59/100) =
      .ok ⟨2, 59/100, [⟨"a", 3/5, meta0⟩, ⟨"b", 3/5, meta0⟩]⟩ ∧
    ([(⟨"a", 3/5, meta0⟩ : Match), ⟨"b", 3/5, meta0⟩].map Match.person_id =
      ["a", "b"]) ∧
    cosine_similarity e1vec (aVec.map fun x => x / 25000) <
      cosine_similarity e1vec (bVec.map fun x => x / 250000) ∧
    specRankedIds e1vec (59/100) storeAB = ["b", "a"] ∧
    (["a", "b"] : List String) ≠ ["b", "a"] :=
  ⟨match_face_storeAB, rfl,
    by rw [sim_aVec, sim_bVec]; norm_num,
    specRankedIds_AB, by decide⟩

/-- C10: the threshold test uses the unrounded similarity while the
reported similarity (and sort key) is rounded to 4 decimal places. With the
query e1vec, candidate aVec (exact similarity 0.60004) and threshold
0.60002, the candidate passes the threshold but its reported similarity is
0.6 — strictly below the request threshold. And on the two-candidate store,
the descending order follows the equal ROUNDED similarities (stable, so
enumeration order "a" then "b") although the exact score of "b" is strictly
larger than that of "a". -/
theorem C10_rounded_similarity :
    match_face (rawOf e1vec) storeA2 (60002/100000) =
      .ok ⟨1, 60002/100000, [⟨"a", 3/5, meta0⟩]⟩ ∧
    cosine_similarity e1vec (aVec.map fun x => x / 25000) = 15001/25000 ∧
    ((60002/100000 : ℝ) ≤ 15001/25000) ∧
    round4 (15001/25000) = 3/5 ∧
    ((3/5 : ℝ) < 60002/100000) ∧
    match_face (rawOf e1vec) storeAB (59/100) =
      .ok ⟨2, 59/100, [⟨"a", 3/5, meta0⟩, ⟨"b", 3/5, meta0⟩]⟩ ∧
    cosine_similarity e1vec (aVec.map fun x => x / 25000) <
      cosine_similarity e1vec (bVec.map fun x => x / 250000) ∧
    round4 (cosine_similarity e1vec (aVec.map fun x => x / 25000)) =
      round4 (cosine_similarity e1vec (bVec.map fun x => x / 250000)) :=
  ⟨match_face_storeA2, sim_aVec, by norm_num, round4_simA, by norm_num,
    match_face_storeAB, by rw [sim_aVec, sim_bVec]; norm_num,
    by rw [sim_aVec, sim_bVec, round4_simA, round4_simB]⟩

end SpecRanking

/-! ## The embedding pipeline's face selection -/

/-- A detected face region: the four components of its axis-aligned
bounding box (`f.bbox[0..3]`) and its embedding, which the external model
may fail to produce. -/
structure FaceObj where
  x1 : ℝ
  y1 : ℝ
  x2 : ℝ
  y2 : ℝ
  embedding : Option Vec

/-- `(f.bbox[2] - f.bbox[0]) * (f.bbox[3] - f.bbox[1])`: the bounding-box
area by which the largest face is chosen. -/
def faceArea (f : FaceObj) : ℝ := (f.x2 - f.x1) * (f.y2 - f.y1)

open Classical in
/-- Python's `max(items, key=...)` on a nonempty list: fold keeping the
current best and replacing it only on a strictly larger key, so the first
of several maxima wins. -/
noncomputable def pyMaxBy {α : Type} (key : α → ℝ) (x : α) (xs : List α) :
    α :=
  xs.foldl (fun best y => if key best < key y then y else best) x

/-- The error kinds of `extract_embedding` (each an HTTPException in the
source: 400 for no face, 500 for the other two). -/
inductive ExtractErr where
  | noFaceDetected
  | embeddingFailed
  | dimMismatch
  deriving DecidableEq

/-- The face `max(faces, key=area)` selects; `none` on an empty list. -/
noncomputable def largestFace : List FaceObj → Option FaceObj
  | [] => none
  | f :: fs => some (pyMaxBy faceArea f fs)

/-- Model of `extract_embedding(image)` given the external detector's
region list: fail with `noFaceDetected` on zero regions, select the region
with the largest bounding-box area, fail if its embedding is missing or not
512-dimensional, and return the embedding otherwise. -/
noncomputable def extract_embedding (faces : List FaceObj) :
    Except ExtractErr Vec :=
  match faces with
  | [] => .error .noFaceDetected
  | f :: fs =>
    match (pyMaxBy faceArea f fs).embedding with
    | none => .error .embeddingFailed
    | some emb =>
      if emb.length ≠ EMBEDDING_DIM then .error .dimMismatch
      else .ok emb

section PyMaxLemmas

/-- `pyMaxBy` returns the first element attaining the maximal key: the list
splits around the returned element, with strictly smaller keys before it
and no larger key after it. -/
theorem pyMaxBy_spec {α : Type} (key : α → ℝ) (x : α) (xs : List α) :
    ∃ l1 l2, x :: xs = l1 ++ pyMaxBy key x xs :: l2 ∧
      (∀ a ∈ l1, key a < key (pyMaxBy key x xs)) ∧
      (∀ a ∈ l2, key a ≤ key (pyMaxBy key x xs)) := by
  induction xs generalizing x with
  | nil =>
    refine ⟨[], [], ?_, by simp, by simp⟩
    simp [pyMaxBy]
  | cons y ys ih =>
    have hstep : pyMaxBy key x (y :: ys) =
        pyMaxBy key (if key x < key y then y else x) ys := by
      simp [pyMaxBy]
    by_cases hxy : key x < key y
    · have hm : pyMaxBy key x (y :: ys) = pyMaxBy key y ys := by
        rw [hstep, if_pos hxy]
      obtain ⟨l1, l2, hdec, hl1, hl2⟩ := ih y
      have hy : key y ≤ key (pyMaxBy key y ys) := by
        have hmem : y ∈ l1 ++ pyMaxBy key y ys :: l2 := by
          rw [← hdec]
          exact List.mem_cons_self _ _
        rcases List.mem_append.mp hmem with h | h
        · exact le_of_lt (hl1 y h)
        · rcases List.mem_cons.mp h with h | h
          · exact le_of_eq (congrArg key h)
          · exact hl2 y h
      refine ⟨x :: l1, l2, ?_, ?_, ?_⟩
      · rw [hm, List.cons_append, ← hdec]
      · intro a ha
        rcases List.mem_cons.mp ha with h | h
        · subst h
          rw [hm]
          exact lt_of_lt_of_le hxy hy
        · rw [hm]
          exact hl1 a h
      · intro a ha
        rw [hm]
        exact hl2 a ha
    · have hm : pyMaxBy key x (y :: ys) = pyMaxBy key x ys := by
        rw [hstep, if_neg hxy]
      obtain ⟨l1, l2, hdec, hl1, hl2⟩ := ih x
      cases l1 with
      | nil =>
        simp only [List.nil_append] at hdec
        have hx : x = pyMaxBy key x ys := (List.cons.injEq _ _ _ _).mp hdec |>.1
        have hys : ys = l2 := (List.cons.injEq _ _ _ _).mp hdec |>.2
        refine ⟨[], y :: ys, ?_, by simp, ?_⟩
        · rw [hm, List.nil_append, ← hx]
        · intro a ha
          rw [hm, ← hx]
          rcases List.mem_cons.mp ha with h | h
          · subst h
            exact le_of_not_lt hxy
          · rw [hys] at h
            have := hl2 a h
            rw [← hx] at this
            exact this
      | cons z l1t =>
        simp only [List.cons_append] at hdec
        have hx : x = z := (List.cons.injEq _ _ _ _).mp hdec |>.1
        have hys : ys = l1t ++ pyMaxBy key x ys :: l2 :=
          (List.cons.injEq _ _ _ _).mp hdec |>.2
        refine ⟨x :: y :: l1t, l2, ?_, ?_, ?_⟩
        · rw [hm]
          simp only [List.cons_append]
          rw [← hys]
        · intro a ha
          rw [hm]
          rcases List.mem_cons.mp ha with h | h
          · subst h
            have := hl1 z (List.mem_cons_self _ _)
            rw [← hx] at this
            exact this
          · rcases List.mem_cons.mp h with h | h
            · subst h
              have hz : key x < key (pyMaxBy key x ys) := by
                have := hl1 z (List.mem_cons_self _ _)
                rw [← hx] at this
                exact this
              exact lt_of_le_of_lt (le_of_not_lt hxy) hz
            · exact hl1 a (List.mem_cons_of_mem _ h)
        · intro a ha
          rw [hm]
          exact hl2 a ha

end PyMaxLemmas

section ClaimC8

/-- C8: on an empty region list the pipeline fails with `noFaceDetected`;
on a nonempty list it selects the region with the largest bounding-box area
(width times height from the axis-aligned box corners), ties broken by
first-encountered order — every region before the selected one has a
strictly smaller area and none after it has a larger one — and the result
of `extract_embedding` is determined by that region's embedding. -/
theorem C8_largest_face (faces : List FaceObj) :
    (faces = [] → extract_embedding faces = .error .noFaceDetected) ∧
    (faces ≠ [] → ∃ g l1 l2,
      largestFace faces = some g ∧
      faces = l1 ++ g :: l2 ∧
      (∀ f ∈ l1, faceArea f < faceArea g) ∧
      (∀ f ∈ l2, faceArea f ≤ faceArea g) ∧
      extract_embedding faces =
        (match g.embedding with
         | none => .error .embeddingFailed
         | some emb =>
           if emb.length ≠ EMBEDDING_DIM then .error .dimMismatch
           else .ok emb)) := by
  constructor
  · intro h
    subst h
    rfl
  · intro h
    cases faces with
    | nil => exact absurd rfl h
    | cons f fs =>
      obtain ⟨l1, l2, hdec, hl1, hl2⟩ := pyMaxBy_spec faceArea f fs
      exact ⟨pyMaxBy faceArea f fs, l1, l2, rfl, hdec, hl1, hl2, rfl⟩

end ClaimC8

end FaceService
